import Mathlib

/-!
Verification model of the video-downloader backend (`app.py`): the bounded
TTL response cache (`cache_response`), the periodic cleanup task
(`cleanup_old_cache`), the metadata validation of `/video-info`
(`VideoProcessor.is_duration_valid`, `get_video_info`), and the chunk relay
of the `/download` endpoint (`download_video.video_stream`).

The module-level `cache` dict is modelled as an association list of entries
in insertion order (Python dicts preserve insertion order); timestamps are
integer seconds, and `datetime` subtraction is integer subtraction.
-/

namespace AppModel

/-- One cache binding: `cache[key] = (value, created)` where `created` is the
`datetime.now()` recorded at the store (app.py line 92). -/
structure Entry (V : Type) where
  key : String
  value : V
  created : Int
deriving Repr, DecidableEq

/-- The module-level `cache` dict, as an association list in insertion order. -/
abbrev Cache (V : Type) := List (Entry V)

/-- `MAX_CACHE_ITEMS = 100` (app.py line 36). -/
def MAX_CACHE_ITEMS : Nat := 100

/-- The keys of the cache, in insertion order (`cache.keys()`). -/
def keysOf {V : Type} (c : Cache V) : List String :=
  c.map (·.key)

/-- Dict lookup: `cache[cache_key]`, `none` when `cache_key not in cache`. -/
def lookup {V : Type} (k : String) (c : Cache V) : Option (V × Int) :=
  match c.find? (fun e => e.key == k) with
  | some e => some (e.value, e.created)
  | none => none

/-- `del cache[cache_key]`: remove the binding for `k`. -/
def eraseKey {V : Type} (k : String) (c : Cache V) : Cache V :=
  c.filter (fun e => e.key != k)

deriving instance DecidableEq for Except

/-- Outcome of one call through the `cache_response` wrapper: the value
returned to the caller (or the propagated exception as `.error`), the cache
state after the call, and whether the wrapped `func` was awaited. -/
structure WrapResult (V : Type) where
  result : Except String V
  cache : Cache V
  invoked : Bool
deriving Repr, DecidableEq

/-- Lines 88-93 of `app.py`: `response = await func(...)` (a raise propagates
with the cache as it stands), then `if len(cache) < MAX_CACHE_ITEMS:
cache[cache_key] = (response, datetime.now())`. A fresh key is appended,
matching dict insertion order. -/
def storeStep {V : Type} (now : Int) (k : String) (compute : Except String V)
    (c1 : Cache V) : WrapResult V :=
  match compute with
  | .error e => ⟨.error e, c1, true⟩
  | .ok v =>
    if c1.length < MAX_CACHE_ITEMS then
      ⟨.ok v, c1 ++ [⟨k, v, now⟩], true⟩
    else
      ⟨.ok v, c1, true⟩

/-- `cache_response.decorator.wrapper` (app.py lines 77-94) for one call at
time `now` with derived key `k`. `compute` is the outcome that
`await func(*args, **kwargs)` would produce on this call. The two
`datetime.now()` readings (freshness check, store) are both modelled as
`now`. A cached entry is fresh iff `now - created < expire_time` (line 83);
otherwise it is deleted (line 86) before `func` is awaited. -/
def wrapper {V : Type} (expire_time : Int) (now : Int) (k : String)
    (compute : Except String V) (c : Cache V) : WrapResult V :=
  match lookup k c with
  | some (v, ts) =>
    if now - ts < expire_time then
      ⟨.ok v, c, false⟩
    else
      storeStep now k compute (eraseKey k c)
  | none => storeStep now k compute c

/-- Entries surviving the TTL pass of one sweep (app.py lines 43-49): every
entry with `now - created > timedelta(minutes=5)` (300 seconds, strict) is
deleted; the rest keep their order. -/
def survivors {V : Type} (now : Int) (c : Cache V) : Cache V :=
  c.filter (fun e => ! decide (now - e.created > 300))

/-- The comparison `sorted(cache.keys(), key=lambda k: cache[k][1])` sorts
keys by the timestamp of their entry; on the entry list this is the
order by `created`. -/
def byCreated {V : Type} (a b : Entry V) : Prop :=
  a.created ≤ b.created

instance {V : Type} : DecidableRel (@byCreated V) :=
  fun a b => Int.decLe a.created b.created

instance {V : Type} : IsTotal (Entry V) byCreated :=
  ⟨fun a b => Int.le_total a.created b.created⟩

instance {V : Type} : IsTrans (Entry V) byCreated :=
  ⟨fun _ _ _ hab hbc => le_trans hab hbc⟩

/-- `oldest_keys` (app.py lines 53-56): the first `len(cache) -
MAX_CACHE_ITEMS` keys when sorted by `created` ascending. Python's `sorted`
is stable; `List.insertionSort` is a stable sort, so sorting the entries and
taking their keys models sorting the keys of a dict (one entry per key). -/
def oldestKeys {V : Type} (c1 : Cache V) : List String :=
  keysOf ((c1.insertionSort byCreated).take (c1.length - MAX_CACHE_ITEMS))

/-- The body of one sweep of `cleanup_old_cache` (app.py lines 43-58): delete
expired entries, then if the remaining count exceeds `MAX_CACHE_ITEMS`,
delete the bindings of `oldest_keys`. -/
def cleanupSweep {V : Type} (now : Int) (c : Cache V) : Cache V :=
  let c1 := survivors now c
  if c1.length > MAX_CACHE_ITEMS then
    c1.filter (fun e => ! (oldestKeys c1).contains e.key)
  else
    c1

/-- One iteration of the `while True` loop (app.py lines 41-61): the `try`
block either completes a sweep (`.ok` with the swept cache) or raises while
the cache is in some intermediate state (`.error` carrying the message and
that state); `except Exception: pass` absorbs the failure either way, so the
iteration always yields a cache and never propagates an exception. -/
def sweepCatch {V : Type} (body : Cache V → Except (String × Cache V) (Cache V))
    (c : Cache V) : Cache V :=
  match body c with
  | .ok c1 => c1
  | .error (_, mid) => mid

/-- The cleanup loop run over a finite schedule of iterations, one `body`
per tick (the `await asyncio.sleep(300)` separates consecutive ticks). -/
def janitorRun {V : Type} (bodies : List (Cache V → Except (String × Cache V) (Cache V)))
    (c : Cache V) : Cache V :=
  bodies.foldl (fun acc b => sweepCatch b acc) c

/-- A sweep iteration that completes normally at time `now`. -/
def normalSweep {V : Type} (now : Int) :
    Cache V → Except (String × Cache V) (Cache V) :=
  fun c => .ok (cleanupSweep now c)

/-- A sweep iteration that raises `e`, leaving the cache in state `mid`. -/
def failingSweep {V : Type} (e : String) (mid : Cache V) :
    Cache V → Except (String × Cache V) (Cache V) :=
  fun _ => .error (e, mid)

/-- The metadata dict returned by `yt_dlp` extraction, restricted to the
fields `get_video_info` reads; `none` models an absent dict key. -/
structure MediaInfo where
  title : Option String
  duration : Option Nat
  thumbnail : Option String
  format : Option String
  url : Option String
deriving Repr, DecidableEq

/-- `VideoProcessor.is_duration_valid` (app.py lines 111-116). `fetch` is the
outcome of `self.get_info()`: `.error` models a raise, `.ok none` models a
falsy extraction result (on which `info.get` raises, caught by the
`except`), `.ok (some info)` a metadata dict. The source defaults
`max_duration` to 120; a missing `duration` key defaults to `0`. -/
def is_duration_valid (fetch : Except String (Option MediaInfo))
    (max_duration : Nat) : Bool :=
  match fetch with
  | .ok (some info) => decide (info.duration.getD 0 ≤ max_duration)
  | _ => false

/-- The JSON body built on lines 160-166 of `app.py`; `durationSeconds`
carries the value `info.get('duration', 0)` whose human-readable rendering
by `humanize.precisedelta` is abstracted away. -/
structure InfoResponse where
  title : String
  durationSeconds : Nat
  thumbnail : String
  format : String
  valid : Bool
deriving Repr, DecidableEq

/-- `get_video_info` (app.py lines 150-168), the handler body inside the
cache decorator. The extractor is deterministic within one request: the
`get_info` call on line 155 and the one inside `is_duration_valid` on line
165 see the same outcome `fetch`. Errors are `(status, detail)` pairs; the
`HTTPException(400, ...)` raised on line 158 for a falsy `info` is itself
caught by `except Exception` on line 167 and re-raised with status 500. -/
def get_video_info (fetch : Except String (Option MediaInfo)) :
    Except (Nat × String) InfoResponse :=
  match fetch with
  | .error e => .error (500, e)
  | .ok none => .error (500, "400: Could not fetch video information")
  | .ok (some info) =>
    .ok { title := info.title.getD ""
          durationSeconds := info.duration.getD 0
          thumbnail := info.thumbnail.getD ""
          format := info.format.getD ""
          valid := is_duration_valid fetch 120 }

/-- `download_video.video_stream` (app.py lines 191-195): `async for chunk in
response.aiter_bytes(): yield chunk` relays each upstream chunk downstream
as it is received. `upstream` is the finite chunk sequence the upstream
response yields; the result is the sequence the downstream sink receives. -/
def video_stream {α : Type} : List α → List α
  | [] => []
  | chunk :: rest => chunk :: video_stream rest

/-- The single-quote character. -/
def squote : Char := Char.ofNat 39

/-- The backslash character. -/
def bslash : Char := Char.ofNat 92

/-- Python `repr` escaping of one character of a single-quoted string
literal: a backslash or a single quote gets a leading backslash, every
other character stands for itself. -/
def reprEscapeChar (ch : Char) : List Char :=
  if ch = bslash then [bslash, bslash]
  else if ch = squote then [bslash, squote]
  else [ch]

/-- Python `repr` escaping of a character sequence. -/
def reprEscape : List Char → List Char
  | [] => []
  | ch :: rest => reprEscapeChar ch ++ reprEscape rest

/-- Python `repr` of a string, modelled as a single-quoted escaped literal. -/
def pyRepr (s : String) : String :=
  ⟨squote :: (reprEscape s.data ++ [squote])⟩

/-- `cache_key = f"{func.__name__}:{str(args)}:{str(kwargs)}"` (app.py line
78), for the one cached endpoint `get_video_info(video: VideoURL)`: the
positional arguments are `(VideoURL(url=...),)` whose `str` is
`(VideoURL(url=<repr of url>),)`, and `kwargs` is the empty dict whose
`str` is a brace pair (written with escapes below). -/
def cache_key (funcName : String) (url : String) : String :=
  funcName ++ ":(VideoURL(url=" ++ pyRepr url ++ "),):" ++ "\x7b\x7d"

/-! ### Helper lemmas about the cache primitives -/

theorem mem_of_lookup_eq_some {V : Type} {k : String} {c : Cache V} {v : V} {ts : Int}
    (h : lookup k c = some (v, ts)) : (⟨k, v, ts⟩ : Entry V) ∈ c := by
  unfold lookup at h
  cases hf : c.find? (fun e => e.key == k) with
  | none => rw [hf] at h; cases h
  | some e =>
    rw [hf] at h
    have hmem := List.mem_of_find?_eq_some hf
    have hkey : e.key = k := by simpa using (List.find?_some hf)
    injection h with h1
    have hv1 : e.value = v := congrArg Prod.fst h1
    have hv2 : e.created = ts := congrArg Prod.snd h1
    have he : e = ⟨k, v, ts⟩ := by cases e; simp_all
    rwa [he] at hmem

theorem lookup_eq_none_iff {V : Type} {k : String} {c : Cache V} :
    lookup k c = none ↔ ∀ e ∈ c, e.key ≠ k := by
  unfold lookup
  cases hf : c.find? (fun e => e.key == k) with
  | none =>
    simp only [true_iff]
    intro e he hk
    have := List.find?_eq_none.mp hf e he
    simp [hk] at this
  | some e =>
    simp only [reduceCtorEq, false_iff]
    have hmem := List.mem_of_find?_eq_some hf
    have hkey : e.key = k := by simpa using (List.find?_some hf)
    intro h
    exact h e hmem hkey

theorem eraseKey_of_lookup_none {V : Type} {k : String} {c : Cache V}
    (h : lookup k c = none) : eraseKey k c = c := by
  refine List.filter_eq_self.mpr ?_
  intro e he
  have := lookup_eq_none_iff.mp h e he
  simpa using this

theorem eraseKey_length_le {V : Type} (k : String) (c : Cache V) :
    (eraseKey k c).length ≤ c.length :=
  c.length_filter_le _

theorem eraseKey_length_lt {V : Type} {k : String} {c : Cache V} {v : V} {ts : Int}
    (h : lookup k c = some (v, ts)) : (eraseKey k c).length < c.length := by
  refine List.length_filter_lt_length_iff_exists.mpr ?_
  refine ⟨⟨k, v, ts⟩, mem_of_lookup_eq_some h, ?_⟩
  simp

theorem lookup_eraseKey {V : Type} (k : String) (c : Cache V) :
    lookup k (eraseKey k c) = none := by
  unfold lookup
  have : (eraseKey k c).find? (fun e => e.key == k) = none := by
    refine List.find?_eq_none.mpr ?_
    intro e he
    simp only [eraseKey] at he
    have := List.of_mem_filter he
    simpa using this
  rw [this]

theorem lookup_append_single {V : Type} {k : String} {c1 : Cache V} (v : V) (ts : Int)
    (h : lookup k c1 = none) : lookup k (c1 ++ [⟨k, v, ts⟩]) = some (v, ts) := by
  unfold lookup at h ⊢
  rw [List.find?_append]
  cases hf : c1.find? (fun e => e.key == k) with
  | some e => rw [hf] at h; cases h
  | none => simp

theorem storeStep_cache_length_le {V : Type} (now : Int) (k : String)
    (compute : Except String V) (c1 : Cache V) (h : c1.length ≤ MAX_CACHE_ITEMS) :
    (storeStep now k compute c1).cache.length ≤ MAX_CACHE_ITEMS := by
  unfold storeStep
  cases compute with
  | error e => simpa using h
  | ok v =>
    by_cases hlt : c1.length < MAX_CACHE_ITEMS
    · simp only [if_pos hlt]
      simp
      omega
    · simp only [if_neg hlt]
      simpa using h

/-! ### Claim theorems about the `cache_response` wrapper -/

/-- C1: a call whose key has a cached entry with `now - created < expire_time`
returns the stored value with the cache unchanged and the wrapped function
not invoked; and, concretely, two calls with the same key within the ttl
starting from an empty cache invoke the wrapped function exactly once (the
first call) and both return the first call's value. -/
theorem fresh_hit_serves_cached_without_compute {V : Type}
    (expire_time n1 n2 ts : Int) (k : String) (compute : Except String V)
    (c : Cache V) (v v1 v2 : V)
    (hfound : lookup k c = some (v, ts)) (hfresh : n1 - ts < expire_time)
    (hgap : n2 - n1 < expire_time) :
    wrapper expire_time n1 k compute c = ⟨.ok v, c, false⟩ ∧
    (wrapper expire_time n1 k (.ok v1) ([] : Cache V)).invoked = true ∧
    (wrapper expire_time n1 k (.ok v1) ([] : Cache V)).result = .ok v1 ∧
    (wrapper expire_time n2 k (.ok v2)
      (wrapper expire_time n1 k (.ok v1) ([] : Cache V)).cache).invoked = false ∧
    (wrapper expire_time n2 k (.ok v2)
      (wrapper expire_time n1 k (.ok v1) ([] : Cache V)).cache).result = .ok v1 := by
  have hhit : wrapper expire_time n1 k compute c = ⟨.ok v, c, false⟩ := by
    unfold wrapper
    rw [hfound]
    simp [hfresh]
  have hfirst : wrapper expire_time n1 k (.ok v1) ([] : Cache V) =
      ⟨.ok v1, [⟨k, v1, n1⟩], true⟩ := by
    unfold wrapper
    rw [show lookup k ([] : Cache V) = none from rfl]
    unfold storeStep
    simp [MAX_CACHE_ITEMS]
  have hlk2 : lookup k ([⟨k, v1, n1⟩] : Cache V) = some (v1, n1) := by
    simp [lookup]
  have hsecond : wrapper expire_time n2 k (.ok v2) ([⟨k, v1, n1⟩] : Cache V) =
      ⟨.ok v1, [⟨k, v1, n1⟩], false⟩ := by
    unfold wrapper
    rw [hlk2]
    simp [hgap]
  refine ⟨hhit, ?_, ?_, ?_, ?_⟩ <;> rw [hfirst] <;> simp only [] <;> rw [hsecond]

/-- C2: a call whose key has a cached entry with `now - created ≥ expire_time`
does not return the stale value: the stale entry is deleted, the wrapped
function is invoked, and (the cache being within its capacity bound) its
fresh result is stored under the key with `created = now`. -/
theorem expired_entry_recomputed_and_refreshed {V : Type}
    (expire_time now ts : Int) (k : String) (c : Cache V) (v v2 : V)
    (hfound : lookup k c = some (v, ts)) (hstale : expire_time ≤ now - ts)
    (hcap : c.length ≤ MAX_CACHE_ITEMS) :
    wrapper expire_time now k (.ok v2) c = ⟨.ok v2, eraseKey k c ++ [⟨k, v2, now⟩], true⟩ ∧
    lookup k (wrapper expire_time now k (.ok v2) c).cache = some (v2, now) := by
  have hroom : (eraseKey k c).length < MAX_CACHE_ITEMS :=
    lt_of_lt_of_le (eraseKey_length_lt hfound) hcap
  have hmain : wrapper expire_time now k (.ok v2) c =
      ⟨.ok v2, eraseKey k c ++ [⟨k, v2, now⟩], true⟩ := by
    unfold wrapper
    rw [hfound]
    have h1 : ¬ (now - ts < expire_time) := by omega
    simp [h1, storeStep, hroom]
  refine ⟨hmain, ?_⟩
  rw [hmain]
  exact lookup_append_single v2 now (lookup_eraseKey k c)

/-- C3: a call that misses while the cache already holds at least
`MAX_CACHE_ITEMS` entries invokes the wrapped function and returns its
result, but stores nothing: the cache is unchanged. -/
theorem miss_at_capacity_computes_without_store {V : Type}
    (expire_time now : Int) (k : String) (c : Cache V) (v : V)
    (hmiss : lookup k c = none) (hfull : MAX_CACHE_ITEMS ≤ c.length) :
    wrapper expire_time now k (.ok v) c = ⟨.ok v, c, true⟩ := by
  unfold wrapper
  rw [hmiss]
  have h1 : ¬ (c.length < MAX_CACHE_ITEMS) := by omega
  simp [storeStep, h1]

/-- C5 counterexample: starting from a cache holding one expired entry under
the key (`created = 0`, call at `now = 400` with ttl 300), a failing compute
leaves the cache different from the prior state — line 86 of `app.py`
deletes the stale entry before `func` is awaited, so the deletion survives
the raise. This refutes "the cache mapping after the failed call equals the
cache mapping before it, for any prior state including one holding an
expired entry under the same key". -/
theorem failing_compute_changes_cache_counterexample :
    (wrapper 300 400 "k" (Except.error "boom") ([⟨"k", 0, 0⟩] : Cache Nat)).cache ≠
      [⟨"k", 0, 0⟩] ∧
    (wrapper 300 400 "k" (Except.error "boom") ([⟨"k", 0, 0⟩] : Cache Nat)).result =
      .error "boom" := by
  constructor
  · decide
  · rfl

/-- C5 amended: when compute runs (no fresh hit) and fails, the failure
propagates verbatim and nothing is stored; the cache equals the prior state
with the binding for the key removed — so on a pure miss it is untouched,
while an expired same-key entry has been discarded and stays gone. -/
theorem compute_failure_propagates_nothing_stored {V : Type}
    (expire_time now : Int) (k e : String) (c : Cache V)
    (hnohit : ∀ v ts, lookup k c = some (v, ts) → expire_time ≤ now - ts) :
    (wrapper expire_time now k (.error e) c).result = .error e ∧
    (wrapper expire_time now k (.error e) c).invoked = true ∧
    (wrapper expire_time now k (.error e) c).cache = eraseKey k c ∧
    (lookup k c = none → (wrapper expire_time now k (.error e) c).cache = c) := by
  cases hl : lookup k c with
  | none =>
    have hw : wrapper expire_time now k (.error e) c = ⟨.error e, c, true⟩ := by
      unfold wrapper
      rw [hl]
      simp [storeStep]
    rw [hw]
    exact ⟨rfl, rfl, (eraseKey_of_lookup_none hl).symm, fun _ => rfl⟩
  | some p =>
    obtain ⟨v, ts⟩ := p
    have hstale := hnohit v ts hl
    have hw : wrapper expire_time now k (.error e) c = ⟨.error e, eraseKey k c, true⟩ := by
      unfold wrapper
      rw [hl]
      have h1 : ¬ (now - ts < expire_time) := by omega
      simp [h1, storeStep]
    rw [hw]
    refine ⟨rfl, rfl, rfl, ?_⟩
    intro hnone
    exact Option.noConfusion hnone

/-! ### Lemmas about the Janitor sweep -/

theorem cleanupSweep_length_le {V : Type} (now : Int) (c : Cache V) :
    (cleanupSweep now c).length ≤ MAX_CACHE_ITEMS := by
  simp only [cleanupSweep]
  set c1 := survivors now c with hc1
  by_cases hgt : c1.length > MAX_CACHE_ITEMS
  · simp only [if_pos hgt]
    set s := c1.insertionSort byCreated with hs
    set m := c1.length - MAX_CACHE_ITEMS with hm
    set p : Entry V → Bool := fun e => ! (oldestKeys c1).contains e.key with hp
    have hperm : s.Perm c1 := List.perm_insertionSort _ c1
    have hlen : s.length = c1.length := List.length_insertionSort _ c1
    have hfperm : (c1.filter p).Perm (s.filter p) := (hperm.filter p).symm
    have htake : (s.take m).filter p = [] := by
      refine List.filter_eq_nil_iff.mpr ?_
      intro e he
      have hkmem : e.key ∈ oldestKeys c1 := by
        unfold oldestKeys keysOf
        exact List.mem_map_of_mem _ he
      simp [hp, hkmem]
    have hcalc : (c1.filter p).length = ((s.drop m).filter p).length := by
      rw [hfperm.length_eq]
      conv_lhs => rw [← List.take_append_drop m s]
      rw [List.filter_append, htake, List.nil_append]
    have hle : ((s.drop m).filter p).length ≤ (s.drop m).length :=
      List.length_filter_le _ _
    have hdrop : (s.drop m).length = s.length - m := List.length_drop m s
    omega
  · simp only [if_neg hgt]
    omega

theorem cleanupSweep_removes_oldest {V : Type} (now : Int) (c : Cache V)
    (hnodup : (keysOf (survivors now c)).Nodup) :
    ∀ e ∈ survivors now c, e ∉ cleanupSweep now c →
      ∀ e2 ∈ cleanupSweep now c, e.created ≤ e2.created := by
  intro e he hrem e2 he2
  by_cases hgt : (survivors now c).length > MAX_CACHE_ITEMS
  case neg =>
    exfalso
    have : cleanupSweep now c = survivors now c := by
      simp only [cleanupSweep, if_neg hgt]
    rw [this] at hrem
    exact hrem he
  case pos =>
    set c1 := survivors now c with hc1
    set s := c1.insertionSort byCreated with hs
    set m := c1.length - MAX_CACHE_ITEMS with hm
    set p : Entry V → Bool := fun e => ! (oldestKeys c1).contains e.key with hp
    have hcs : cleanupSweep now c = c1.filter p := by
      simp only [cleanupSweep, if_pos hgt]
    have hperm : s.Perm c1 := List.perm_insertionSort _ c1
    have hpe : p e = false := by
      by_contra hne
      have : p e = true := by
        cases hcase : p e with
        | true => rfl
        | false => exact absurd hcase hne
      exact hrem (hcs ▸ List.mem_filter.mpr ⟨he, this⟩)
    have hkey : e.key ∈ (s.take m).map (·.key) := by
      rw [hp] at hpe
      simp only [Bool.not_eq_false] at hpe
      have hmem : e.key ∈ oldestKeys c1 := by simpa using hpe
      simpa [oldestKeys, keysOf] using hmem
    obtain ⟨e1, he1take, he1key⟩ := List.mem_map.mp hkey
    have hes : e ∈ s := hperm.mem_iff.mpr he
    have he1s : e1 ∈ s := List.mem_of_mem_take he1take
    have hnodups : (s.map (·.key)).Nodup := by
      have hpm : (s.map (·.key)).Perm (c1.map (·.key)) := hperm.map _
      exact hpm.nodup_iff.mpr (by simpa [keysOf] using hnodup)
    have hee1 : e1 = e :=
      List.inj_on_of_nodup_map hnodups he1s hes he1key
    have hetake : e ∈ s.take m := hee1 ▸ he1take
    have he2c1 : e2 ∈ c1 := by
      rw [hcs] at he2
      exact List.mem_of_mem_filter he2
    have hpe2 : p e2 = true := by
      rw [hcs] at he2
      exact List.of_mem_filter he2
    have he2s : e2 ∈ s := hperm.mem_iff.mpr he2c1
    have he2ntake : e2 ∉ s.take m := by
      intro hmem
      have hk2 : e2.key ∈ (s.take m).map (·.key) := List.mem_map_of_mem _ hmem
      have : (oldestKeys c1).contains e2.key = true := by
        have : e2.key ∈ oldestKeys c1 := by simpa [oldestKeys, keysOf] using hk2
        simpa using this
      rw [hp] at hpe2
      simp at hpe2
      exact hpe2 (by simpa using this)
    have he2drop : e2 ∈ s.drop m := by
      have hsplit : e2 ∈ s.take m ++ s.drop m := by
        rw [List.take_append_drop]
        exact he2s
      rcases List.mem_append.mp hsplit with h1 | h2
      · exact absurd h1 he2ntake
      · exact h2
    have hsort : List.Sorted byCreated s := List.sorted_insertionSort byCreated c1
    have hpairw : List.Pairwise byCreated (s.take m ++ s.drop m) := by
      rw [List.take_append_drop]
      exact hsort
    exact (List.pairwise_append.mp hpairw).2.2 e hetake e2 he2drop

theorem cleanupSweep_of_within_capacity {V : Type} (now : Int) (c : Cache V)
    (hle : ¬ (survivors now c).length > MAX_CACHE_ITEMS) :
    cleanupSweep now c = survivors now c := by
  simp only [cleanupSweep, if_neg hle]

theorem cleanupSweep_perm_drop {V : Type} (now : Int) (c : Cache V)
    (hnodup : (keysOf (survivors now c)).Nodup)
    (hgt : (survivors now c).length > MAX_CACHE_ITEMS) :
    (cleanupSweep now c).Perm
      (((survivors now c).insertionSort byCreated).drop
        ((survivors now c).length - MAX_CACHE_ITEMS)) := by
  set c1 := survivors now c with hc1
  set s := c1.insertionSort byCreated with hs
  set m := c1.length - MAX_CACHE_ITEMS with hm
  set p : Entry V → Bool := fun e => ! (oldestKeys c1).contains e.key with hp
  have hcs : cleanupSweep now c = c1.filter p := by
    simp only [cleanupSweep, if_pos hgt]
  have hperm : s.Perm c1 := List.perm_insertionSort _ c1
  have hnodups : (s.map (·.key)).Nodup := by
    have hpm : (s.map (·.key)).Perm (c1.map (·.key)) := hperm.map _
    exact hpm.nodup_iff.mpr (by simpa [keysOf] using hnodup)
  have hnods : s.Nodup := List.Nodup.of_map _ hnodups
  have hdisj : List.Disjoint (s.take m) (s.drop m) :=
    List.disjoint_take_drop hnods le_rfl
  have htake : (s.take m).filter p = [] := by
    refine List.filter_eq_nil_iff.mpr ?_
    intro e he
    have hkmem : e.key ∈ oldestKeys c1 := by
      unfold oldestKeys keysOf
      exact List.mem_map_of_mem _ he
    simp [hp, hkmem]
  have hdropfilter : (s.drop m).filter p = s.drop m := by
    refine List.filter_eq_self.mpr ?_
    intro e he
    rw [hp]
    simp only [Bool.not_eq_eq_eq_not, Bool.not_true]
    cases hcont : (oldestKeys c1).contains e.key with
    | false => rfl
    | true =>
      exfalso
      have hkmem : e.key ∈ (s.take m).map (·.key) := by
        have : e.key ∈ oldestKeys c1 := by simpa using hcont
        simpa [oldestKeys, keysOf] using this
      obtain ⟨e1, he1take, he1key⟩ := List.mem_map.mp hkmem
      have he1s : e1 ∈ s := List.mem_of_mem_take he1take
      have hes : e ∈ s := List.mem_of_mem_drop he
      have hee1 : e1 = e := List.inj_on_of_nodup_map hnodups he1s hes he1key
      exact hdisj (hee1 ▸ he1take) he
  have hsfilter : s.filter p = s.drop m := by
    conv_lhs => rw [← List.take_append_drop m s]
    rw [List.filter_append, htake, hdropfilter, List.nil_append]
  rw [hcs, ← hsfilter]
  exact (hperm.filter p).symm

/-! ### Claim theorems about the Janitor and the capacity invariant -/

/-- C4: after one Janitor sweep over any cache state whose keys are distinct
(as in a dict), the cache holds at most `MAX_CACHE_ITEMS` entries, and the
entries removed by the capacity step are exactly the oldest ones needed to
restore the bound: when the TTL survivors are within the bound nothing is
removed for capacity; when they exceed it, the result is (a permutation of)
the survivors minus precisely their `length - MAX_CACHE_ITEMS` oldest
entries by `created` (the head of the stable sort), so exactly as many
entries as needed are evicted, and every entry removed is at least as old
as every entry that remains. -/
theorem janitor_sweep_capacity_and_oldest_first {V : Type} (now : Int) (c : Cache V)
    (hnodup : (keysOf (survivors now c)).Nodup) :
    (cleanupSweep now c).length ≤ MAX_CACHE_ITEMS ∧
    (¬ (survivors now c).length > MAX_CACHE_ITEMS →
      cleanupSweep now c = survivors now c) ∧
    ((survivors now c).length > MAX_CACHE_ITEMS →
      (cleanupSweep now c).Perm
        (((survivors now c).insertionSort byCreated).drop
          ((survivors now c).length - MAX_CACHE_ITEMS))) ∧
    ∀ e ∈ survivors now c, e ∉ cleanupSweep now c →
      ∀ e2 ∈ cleanupSweep now c, e.created ≤ e2.created :=
  ⟨cleanupSweep_length_le now c,
   cleanupSweep_of_within_capacity now c,
   cleanupSweep_perm_drop now c hnodup,
   cleanupSweep_removes_oldest now c hnodup⟩

/-- The §8 scenario state: a cache at capacity plus one more entry, with
strictly increasing timestamps 1, 2, ..., 101 and pairwise distinct keys. -/
def demoCache : Cache Nat :=
  (List.range 101).map (fun i => ⟨toString i, i, (i : Int) + 1⟩)

/-- Witness for C4 at the §8 scenario: 101 distinct-key entries with
timestamps 1 < 2 < ... < 101, swept at `now = 200` (none TTL-expired); the
sweep removes exactly the one entry with the smallest timestamp — the
result is literally the demo cache minus its `created = 1` head entry. -/
theorem janitor_sweep_capacity_and_oldest_first_witness :
    ((cleanupSweep 200 demoCache).length ≤ MAX_CACHE_ITEMS ∧
     (¬ (survivors 200 demoCache).length > MAX_CACHE_ITEMS →
       cleanupSweep 200 demoCache = survivors 200 demoCache) ∧
     ((survivors 200 demoCache).length > MAX_CACHE_ITEMS →
       (cleanupSweep 200 demoCache).Perm
         (((survivors 200 demoCache).insertionSort byCreated).drop
           ((survivors 200 demoCache).length - MAX_CACHE_ITEMS))) ∧
     ∀ e ∈ survivors 200 demoCache, e ∉ cleanupSweep 200 demoCache →
       ∀ e2 ∈ cleanupSweep 200 demoCache, e.created ≤ e2.created) ∧
    cleanupSweep 200 demoCache = demoCache.drop 1 :=
  ⟨janitor_sweep_capacity_and_oldest_first 200 demoCache (by decide), by decide⟩

/-- C8: the `except Exception: pass` of the cleanup loop absorbs any raise
from a sweep: a run of the loop whose schedule contains a failing iteration
is still total, the failing iteration leaves the cache at whatever state the
raise left it, and every later iteration of the schedule still executes; a
normally completing iteration performs its sweep. -/
theorem janitor_sweep_failure_absorbed {V : Type}
    (pre post : List (Cache V → Except (String × Cache V) (Cache V)))
    (e : String) (mid c c3 : Cache V) (now : Int) :
    janitorRun (pre ++ failingSweep e mid :: post) c = janitorRun post mid ∧
    sweepCatch (failingSweep e mid) c3 = mid ∧
    sweepCatch (normalSweep now) c3 = cleanupSweep now c3 := by
  refine ⟨?_, rfl, rfl⟩
  unfold janitorRun
  rw [List.foldl_append]
  rfl

/-- C10: every cache operation preserves `len(cache) ≤ MAX_CACHE_ITEMS`: any
wrapper call (hit, expired re-store, miss with or without store, failing
compute) maps a cache within the bound to a cache within the bound, because
the write path stores only when strictly below the bound; and a Janitor
sweep yields a cache within the bound from any state whatsoever. -/
theorem capacity_invariant_preserved {V : Type}
    (expire_time now now2 : Int) (k : String) (compute : Except String V)
    (c c2 : Cache V) (hcap : c.length ≤ MAX_CACHE_ITEMS) :
    (wrapper expire_time now k compute c).cache.length ≤ MAX_CACHE_ITEMS ∧
    (cleanupSweep now2 c2).length ≤ MAX_CACHE_ITEMS := by
  constructor
  · unfold wrapper
    cases hl : lookup k c with
    | some pr =>
      obtain ⟨v, ts⟩ := pr
      by_cases hfresh : now - ts < expire_time
      · simpa [hfresh] using hcap
      · simp only [hfresh, if_false]
        exact storeStep_cache_length_le _ _ _ _
          (le_trans (eraseKey_length_le k c) hcap)
    | none =>
      exact storeStep_cache_length_le _ _ _ _ hcap
  · exact cleanupSweep_length_le now2 c2

/-! ### Claim theorems about metadata validation, streaming, and key derivation -/

/-- C6 counterexample: an extraction result with no direct media URL and no
duration at all is still reported `valid = true` — `info.get("duration", 0)`
defaults the missing duration to `0 ≤ 120` and no URL-presence check exists.
This refutes "the `valid` flag requires the presence of a usable direct
media URL and a duration". -/
theorem valid_without_url_or_duration_counterexample :
    (⟨none, none, none, none, none⟩ : MediaInfo).duration = none ∧
    (⟨none, none, none, none, none⟩ : MediaInfo).url = none ∧
    is_duration_valid (.ok (some ⟨none, none, none, none, none⟩)) 120 = true ∧
    get_video_info (.ok (some ⟨none, none, none, none, none⟩)) =
      .ok ⟨"", 0, "", "", true⟩ :=
  ⟨rfl, rfl, rfl, rfl⟩

/-- C6 amended: `valid` is the duration check alone — it is `true` iff the
extraction succeeded and `duration` (defaulting to 0 when absent; the media
URL is never inspected) is at most 120; a resource with duration above 120
is reported `valid = false` with its metadata still returned, one with
duration at most 120 is reported `valid = true`, and a failed extraction
yields `valid = false`. -/
theorem duration_validation_amended (info : MediaInfo) (d : Nat)
    (hd : info.duration = some d) :
    get_video_info (.ok (some info)) =
      .ok ⟨info.title.getD "", d, info.thumbnail.getD "", info.format.getD "",
           decide (d ≤ 120)⟩ ∧
    (120 < d → is_duration_valid (.ok (some info)) 120 = false) ∧
    (d ≤ 120 → is_duration_valid (.ok (some info)) 120 = true) ∧
    (∀ err : String, is_duration_valid (.error err) 120 = false) := by
  refine ⟨?_, ?_, ?_, fun err => rfl⟩
  · simp [get_video_info, is_duration_valid, hd]
  · intro hgt
    simp [is_duration_valid, hd]
    omega
  · intro hle
    simp [is_duration_valid, hd, hle]

/-- Witness for C6 amended, at a resource of duration 130 (above the 120
maximum): metadata returned, `valid = false`. -/
theorem duration_validation_amended_witness :
    get_video_info (.ok (some ⟨some "t", some 130, some "th", some "f", some "u"⟩)) =
      .ok ⟨"t", 130, "th", "f", false⟩ ∧
    is_duration_valid (.ok (some ⟨some "t", some 130, some "th", some "f", some "u"⟩)) 120
      = false := by
  have h := duration_validation_amended ⟨some "t", some 130, some "th", some "f", some "u"⟩
    130 rfl
  exact ⟨by simpa using h.1, h.2.1 (by omega)⟩

/-- C7: the download stream generator forwards a finite upstream chunk
sequence unchanged — the downstream sink receives exactly the chunks
C1, ..., Ck in order (so their concatenation too), with no reordering, gaps
or duplicates. -/
theorem stream_relays_chunks_in_order {α : Type} (chunks : List (List α)) :
    video_stream chunks = chunks ∧
    (video_stream chunks).flatten = chunks.flatten := by
  have h : ∀ l : List (List α), video_stream l = l := by
    intro l
    induction l with
    | nil => rfl
    | cons a t ih => simp [video_stream, ih]
  exact ⟨h chunks, by rw [h chunks]⟩

/-- Decoder of the `repr` escaping: a left inverse of `reprEscape`. -/
def reprDecode : List Char → List Char
  | [] => []
  | ch :: rest =>
    if ch = bslash then
      match rest with
      | [] => []
      | ch2 :: rest2 => ch2 :: reprDecode rest2
    else ch :: reprDecode rest

theorem reprDecode_cons_ne {ch : Char} (rest : List Char) (h : ¬ ch = bslash) :
    reprDecode (ch :: rest) = ch :: reprDecode rest := by
  cases rest with
  | nil => simp [reprDecode, h]
  | cons b t => simp [reprDecode, h]

theorem reprDecode_reprEscape (l : List Char) : reprDecode (reprEscape l) = l := by
  induction l with
  | nil => rfl
  | cons a s ih =>
    by_cases ha1 : a = bslash
    · simp [reprEscape, reprEscapeChar, ha1, reprDecode, ih]
    · by_cases ha2 : a = squote
      · simp [reprEscape, reprEscapeChar, ha1, ha2, reprDecode, ih]
      · have he : reprEscape (a :: s) = a :: reprEscape s := by
          simp [reprEscape, reprEscapeChar, ha1, ha2]
        rw [he, reprDecode_cons_ne _ ha1, ih]

theorem reprEscape_inj {l1 l2 : List Char} (h : reprEscape l1 = reprEscape l2) :
    l1 = l2 := by
  have h2 := congrArg reprDecode h
  rwa [reprDecode_reprEscape, reprDecode_reprEscape] at h2

/-- C9: the derived cache key is deterministic and discriminating — for the
cached endpoint (fixed wrapped-function name, one URL-carrying positional
argument, empty keyword arguments), two calls yield equal keys exactly when
their URLs are equal: identical arguments give the same key, differing
arguments give different keys. -/
theorem cache_key_deterministic_and_injective (funcName u1 u2 : String) :
    cache_key funcName u1 = cache_key funcName u1 ∧
    (cache_key funcName u1 = cache_key funcName u2 ↔ u1 = u2) := by
  refine ⟨rfl, ?_, fun h => by rw [h]⟩
  intro h
  have hdata := congrArg String.data h
  simp only [cache_key, pyRepr, String.data_append] at hdata
  have hesc : reprEscape u1.data = reprEscape u2.data := by
    have h1 := List.append_cancel_right (List.append_cancel_right hdata)
    have h2 := List.append_cancel_left h1
    have h3 : reprEscape u1.data ++ [squote] = reprEscape u2.data ++ [squote] :=
      List.cons_injective h2
    exact List.append_cancel_right h3
  have hd : u1.data = u2.data := reprEscape_inj hesc
  cases u1
  cases u2
  exact congrArg String.mk hd

/-! ### Concrete witnesses for the hypotheses-bearing claim theorems -/

/-- Witness for C1: fresh entry (`created = 3`, call at 10, ttl 300) served
from cache; two calls at times 10 and 20 on an empty cache compute once. -/
theorem fresh_hit_serves_cached_without_compute_witness :
    wrapper 300 10 "k" (Except.ok 7) ([⟨"k", 5, 3⟩] : Cache Nat) =
      ⟨.ok 5, [⟨"k", 5, 3⟩], false⟩ ∧
    (wrapper 300 10 "k" (Except.ok 7) ([] : Cache Nat)).invoked = true ∧
    (wrapper 300 10 "k" (Except.ok 7) ([] : Cache Nat)).result = .ok 7 ∧
    (wrapper 300 20 "k" (Except.ok 8)
      (wrapper 300 10 "k" (Except.ok 7) ([] : Cache Nat)).cache).invoked = false ∧
    (wrapper 300 20 "k" (Except.ok 8)
      (wrapper 300 10 "k" (Except.ok 7) ([] : Cache Nat)).cache).result = .ok 7 :=
  fresh_hit_serves_cached_without_compute 300 10 20 3 "k" (Except.ok 7)
    [⟨"k", 5, 3⟩] 5 7 8 (by decide) (by decide) (by decide)

/-- Witness for C2: entry created at 0 is stale at `now = 400` with ttl 300;
the call recomputes (value 9) and stores it with `created = 400`. -/
theorem expired_entry_recomputed_and_refreshed_witness :
    wrapper 300 400 "k" (Except.ok 9) ([⟨"k", 5, 0⟩] : Cache Nat) =
      ⟨.ok 9, eraseKey "k" ([⟨"k", 5, 0⟩] : Cache Nat) ++ [⟨"k", 9, 400⟩], true⟩ ∧
    lookup "k" (wrapper 300 400 "k" (Except.ok 9) ([⟨"k", 5, 0⟩] : Cache Nat)).cache =
      some (9, 400) :=
  expired_entry_recomputed_and_refreshed 300 400 0 "k" [⟨"k", 5, 0⟩] 5 9
    (by decide) (by decide) (by decide)

/-- A cache at the capacity bound: 100 entries with distinct keys. -/
def fullCache : Cache Nat :=
  (List.range 100).map (fun i => ⟨toString i, 0, 0⟩)

/-- Witness for C3: a miss against the 100-entry `fullCache` computes and
returns 7 but stores nothing. -/
theorem miss_at_capacity_computes_without_store_witness :
    wrapper 300 0 "k" (Except.ok 7) fullCache = ⟨.ok 7, fullCache, true⟩ :=
  miss_at_capacity_computes_without_store 300 0 "k" fullCache 7
    (by decide) (by decide)

/-- Witness for C5 amended: failing compute on a pure miss (empty cache)
propagates and leaves the cache untouched. -/
theorem compute_failure_propagates_nothing_stored_witness :
    (wrapper 300 400 "q" (Except.error "boom") ([] : Cache Nat)).result = .error "boom" ∧
    (wrapper 300 400 "q" (Except.error "boom") ([] : Cache Nat)).invoked = true ∧
    (wrapper 300 400 "q" (Except.error "boom") ([] : Cache Nat)).cache =
      eraseKey "q" ([] : Cache Nat) ∧
    (lookup "q" ([] : Cache Nat) = none →
      (wrapper 300 400 "q" (Except.error "boom") ([] : Cache Nat)).cache =
        ([] : Cache Nat)) :=
  compute_failure_propagates_nothing_stored 300 400 "q" "boom" []
    (by intro v ts h; simp [lookup] at h)

/-- Witness for C10: both operations applied to an empty cache keep the
capacity bound. -/
theorem capacity_invariant_preserved_witness :
    (wrapper 300 0 "k" (Except.ok 1) ([] : Cache Nat)).cache.length ≤ MAX_CACHE_ITEMS ∧
    (cleanupSweep 0 ([] : Cache Nat)).length ≤ MAX_CACHE_ITEMS :=
  capacity_invariant_preserved 300 0 0 "k" (Except.ok 1) [] [] (by decide)

end AppModel
